import Mathlib

/-!
Shallow embedding of the goroutine worker pool from `frame/pool`
(`pool.go` and `worker.go`).

Modelling conventions:
- Go `time.Duration` values are integers counting nanoseconds; `time.Time`
  values are integers (nanoseconds since an arbitrary origin).
- The capacity-1 task channel of a worker is a list of buffered messages;
  a message is `Option Task`, where `none` is the nil poison value.
- `sync.Pool` (the worker reuse cache) has no `New` function in the source,
  so `Get` on an empty cache yields Go `nil`; the cache is modelled as a
  list (`Get` pops the head, `Put` pushes; an empty list yields the nil
  result).  The `cond *sync.Cond` field is modelled by the flag
  `condInit`: `true` means the pointer refers to an initialized condition
  variable, `false` means it is the nil pointer (no constructor in the
  source ever assigns it).
- Goroutine-visible effects are recorded as an explicit trace of events
  (`Ev`), and a panic is an explicit outcome rather than an exception.
-/

namespace GoPool

/-- Nanoseconds in one second (`time.Second`). -/
def nsPerSecond : Int := 1000000000

/-- `DefaultExpire = 5` from pool.go. -/
def DefaultExpire : Int := 5

/-- A task closure handed to `Submit`: `tid` identifies it, `panics`
records whether invoking it panics. -/
structure Task where
  tid : Nat
  panics : Bool
deriving DecidableEq

/-- The `Worker` struct of worker.go: back reference to the pool, the
single-slot task channel, and the `lastTime` timestamp.  `hasPool` and
`hasChan` record whether the two reference fields are non-nil (they are
set to nil by `Pool.Release`). -/
structure Worker where
  wid : Nat
  hasPool : Bool
  hasChan : Bool
  chanBuf : List (Option Task)
  lastTime : Int
deriving DecidableEq

/-- The three error values of pool.go: `ErrorInValidCap`,
`ErrorInValidExpire`, `ErrorHasClosed`. -/
inductive PoolError where
  | invalidCap
  | invalidExpire
  | hasClosed
deriving DecidableEq

/-- The `Pool` struct of pool.go.  `releaseLen` is the number of buffered
messages in the capacity-1 `release` channel; `onceDone` is the state of
the `sync.Once` guarding `Release`; `cache` is the `workerCache`
(`sync.Pool`); `condInit` records whether the `cond *sync.Cond` pointer
is non-nil; `reaperStarted` records whether `go p.expireWorker()` has
been launched for this pool. -/
structure Pool where
  cap : Int
  running : Int
  workers : List Worker
  expire : Int
  releaseLen : Nat
  onceDone : Bool
  cache : List Worker
  condInit : Bool
  panicHandlerSet : Bool
  reaperStarted : Bool
deriving DecidableEq

/-- `NewTimePool(cap, expire)` from pool.go: validates both parameters,
then builds the pool literal `&Pool{cap, expire * time.Second, release}`.
All omitted Go fields take their zero values: no idle workers, zero
running count, empty `workerCache`, nil `cond`, nil `PanicHandler`, and
no goroutine is launched. -/
def NewTimePool (cap expire : Int) : Except PoolError Pool :=
  if cap ≤ 0 then Except.error PoolError.invalidCap
  else if expire ≤ 0 then Except.error PoolError.invalidExpire
  else Except.ok
    { cap := cap
      running := 0
      workers := []
      expire := expire * nsPerSecond
      releaseLen := 0
      onceDone := false
      cache := []
      condInit := false
      panicHandlerSet := false
      reaperStarted := false }

/-- `NewPool(cap)` from pool.go: `NewTimePool(cap, DefaultExpire)`. -/
def NewPool (cap : Int) : Except PoolError Pool :=
  NewTimePool cap DefaultExpire

/-- `Pool.IsClosed`: `len(p.release) > 0`. -/
def IsClosed (p : Pool) : Bool :=
  decide (0 < p.releaseLen)

/-- `Pool.Running`: the atomic load of the counter. -/
def Running (p : Pool) : Int := p.running

/-- `Pool.Free`: `cap - running`. -/
def Free (p : Pool) : Int := p.cap - p.running

/-- Events observable in an execution trace of the pool operations. -/
inductive Ev where
  | invokeTask (tid : Nat)
  | taskPanicked (tid : Nat)
  | setLastTime (wid : Nat) (t : Int)
  | appendIdle (wid : Nat)
  | condSignal (condIsNil : Bool)
  | condWait (condIsNil : Bool)
  | popIdle (wid : Nat)
  | cacheGet (hit : Option Nat)
  | nilTypeAssert
  | incRunning
  | decRunning
  | cachePut (wid : Nat)
  | recoverNonNil
  | callPanicHandler
  | logError
  | sendTask (wid : Nat)
  | sendPoison (wid : Nat)
  | writeCloseSig
deriving DecidableEq

/-- Outcome of a call that may dereference the nil `cond` pointer. -/
inductive POut where
  | ok
  | panicNilCond
deriving DecidableEq

/-- Result record of `PutWorker`. -/
structure PutRes where
  pool : Pool
  w : Worker
  trace : List Ev
  out : POut
deriving DecidableEq

/-- `Pool.PutWorker(w)` from pool.go: set `w.lastTime = time.Now()`,
lock, append `w` to `p.workers`, call `p.cond.Signal()`, unlock.  When
`cond` is the nil pointer the `Signal` call dereferences nil and panics
while the mutex is still held; the append has already happened. -/
def PutWorker (p : Pool) (w : Worker) (now : Int) : PutRes :=
  let w' : Worker := { w with lastTime := now }
  let p' : Pool := { p with workers := p.workers ++ [w'] }
  if p.condInit then
    { pool := p'
      w := w'
      trace := [Ev.setLastTime w.wid now, Ev.appendIdle w.wid, Ev.condSignal false]
      out := POut.ok }
  else
    { pool := p'
      w := w'
      trace := [Ev.setLastTime w.wid now, Ev.appendIdle w.wid, Ev.condSignal true]
      out := POut.panicNilCond }

/-- The deferred cleanup of `Worker.running` (worker.go): in order,
`decRunning`, `workerCache.Put(w)`, `recover()` with the handler-or-log
dispatch when a panic is in flight, then `cond.Signal()` (a nil
dereference when `cond` was never initialized). -/
def runningDefer (p : Pool) (w : Worker) (panicked : Bool) :
    Pool × List Ev × POut :=
  let p1 : Pool := { p with running := p.running - 1, cache := w :: p.cache }
  let recTrace : List Ev :=
    if panicked then
      if p.panicHandlerSet then [Ev.recoverNonNil, Ev.callPanicHandler]
      else [Ev.recoverNonNil, Ev.logError]
    else []
  ( p1
  , [Ev.decRunning, Ev.cachePut w.wid] ++ recTrace ++
      [Ev.condSignal (!p.condInit)]
  , if p.condInit then POut.ok else POut.panicNilCond )

/-- How one iteration of the `for f := range w.task` loop ends. -/
inductive StepRes where
  | continueLoop
  | exited
  | crashed
deriving DecidableEq

/-- One message received by the `Worker.running` loop (worker.go).
`none` is the poison value: the loop returns and the deferred cleanup
runs with no panic in flight.  A non-nil task is invoked; if it panics
the loop aborts and the deferred cleanup recovers.  If it returns
normally the worker calls `PutWorker` on itself; when that hits the nil
`cond` the deferred cleanup recovers the nil dereference but its own
final `Signal` panics again, crashing the goroutine. -/
def runningStep (p : Pool) (w : Worker) (msg : Option Task) (now : Int) :
    Pool × List Ev × StepRes :=
  match msg with
  | none =>
      let r := runningDefer p w false
      (r.1, r.2.1, if r.2.2 = POut.ok then StepRes.exited else StepRes.crashed)
  | some t =>
      if t.panics then
        let r := runningDefer p w true
        ( r.1
        , Ev.invokeTask t.tid :: Ev.taskPanicked t.tid :: r.2.1
        , if r.2.2 = POut.ok then StepRes.exited else StepRes.crashed )
      else
        let pr := PutWorker p w now
        if pr.out = POut.ok then
          (pr.pool, Ev.invokeTask t.tid :: pr.trace, StepRes.continueLoop)
        else
          let r := runningDefer pr.pool pr.w true
          ( r.1
          , (Ev.invokeTask t.tid :: pr.trace) ++ r.2.1
          , StepRes.crashed )

/-- Result of `Pool.GetWorker`. -/
inductive GetRes where
  | idleW (w : Worker)
  | newW (w : Worker)
  | panicNilAssert
  | mustWait
  | panicNilCondWait
deriving DecidableEq

/-- `Pool.GetWorker` from pool.go.
1. If the idle list is non-empty (`n := len(idleWorkers)-1; n >= 0`),
   pop the last element and return it.
2. Else if `p.running < p.cap`, unlock and run `readyWorker`, which is
   `w = p.workerCache.Get().(*Worker); w.run()`: the cache has no `New`
   function, so on an empty cache `Get` returns nil and the type
   assertion panics; otherwise the cached worker is taken and `run`
   increments `running` and starts the loop goroutine.
3. Else call `waitIdleWorker`, whose first action is `p.cond.Wait()`:
   a nil dereference when `cond` was never initialized, otherwise the
   caller blocks on the condition variable. -/
def GetWorker (p : Pool) : Pool × GetRes × List Ev :=
  match p.workers.getLast? with
  | some w =>
      ( { p with workers := p.workers.dropLast }
      , GetRes.idleW w
      , [Ev.popIdle w.wid] )
  | none =>
      if p.running < p.cap then
        match p.cache with
        | [] => (p, GetRes.panicNilAssert, [Ev.cacheGet none, Ev.nilTypeAssert])
        | c :: rest =>
            ( { p with cache := rest, running := p.running + 1 }
            , GetRes.newW c
            , [Ev.cacheGet (some c.wid), Ev.incRunning] )
      else
        if p.condInit then (p, GetRes.mustWait, [Ev.condWait false])
        else (p, GetRes.panicNilCondWait, [Ev.condWait true])

/-- Result of resuming `waitIdleWorker` after `cond.Wait()` returns. -/
inductive WaitRes where
  | idleW (w : Worker)
  | cachedW (w : Worker)
  | freshW (w : Worker)
  | waitAgain
deriving DecidableEq

/-- The body of `Pool.waitIdleWorker` after `p.cond.Wait()` has returned,
applied to the pool state observed at wake-up: pop the last idle worker
if any; else, if `running < cap`, take a worker from the cache with an
explicit nil check (allocating a fresh `&Worker{pool: p, task: make(chan
func(), 1)}` on a cache miss) and start it; else recurse, i.e. wait
again. -/
def waitResume (p : Pool) (freshWid : Nat) : Pool × WaitRes :=
  match p.workers.getLast? with
  | some w => ({ p with workers := p.workers.dropLast }, WaitRes.idleW w)
  | none =>
      if p.running < p.cap then
        match p.cache with
        | [] =>
            ( { p with running := p.running + 1 }
            , WaitRes.freshW
                { wid := freshWid, hasPool := true, hasChan := true
                  chanBuf := [], lastTime := 0 } )
        | c :: rest =>
            ( { p with cache := rest, running := p.running + 1 }
            , WaitRes.cachedW c )
      else (p, WaitRes.waitAgain)

/-- Result of `Pool.Submit`. -/
inductive SubmitRes where
  | errClosed
  | accepted (wid : Nat)
  | panicNilAssert
  | blockedOnCond
  | panicNilCondWait
deriving DecidableEq

/-- `Pool.Submit(task)` from pool.go: if `len(p.release) > 0` return
`ErrorHasClosed`; otherwise `w := p.GetWorker(); w.task <- task; return
nil`.  The returned `Option Worker` is the acquired worker with the task
buffered in its capacity-1 channel; `Submit` itself never invokes the
task. -/
def Submit (p : Pool) (t : Task) : Pool × SubmitRes × Option Worker × List Ev :=
  if 0 < p.releaseLen then (p, SubmitRes.errClosed, none, [])
  else
    let g := GetWorker p
    match g.2.1 with
    | GetRes.idleW w =>
        ( g.1, SubmitRes.accepted w.wid
        , some { w with chanBuf := w.chanBuf ++ [some t] }
        , g.2.2 ++ [Ev.sendTask w.wid] )
    | GetRes.newW w =>
        ( g.1, SubmitRes.accepted w.wid
        , some { w with chanBuf := w.chanBuf ++ [some t] }
        , g.2.2 ++ [Ev.sendTask w.wid] )
    | GetRes.panicNilAssert => (g.1, SubmitRes.panicNilAssert, none, g.2.2)
    | GetRes.mustWait => (g.1, SubmitRes.blockedOnCond, none, g.2.2)
    | GetRes.panicNilCondWait => (g.1, SubmitRes.panicNilCondWait, none, g.2.2)

/-- The scan loop of `Pool.expireWorker` over the idle list (oldest
first): `for i, w := range idleWorkers`, breaking at the first worker
with `now - w.lastTime <= expire`; every earlier worker is sent the nil
poison and recorded for removal (`clearN = i`).  Returns the evicted
prefix and the workers kept by the final reslicing
(`idleWorkers[clearN+1:]`, or the untouched list when `clearN == -1`). -/
def expireScan (now expire : Int) : List Worker → List Worker × List Worker
  | [] => ([], [])
  | w :: ws =>
      if now - w.lastTime ≤ expire then ([], w :: ws)
      else
        let r := expireScan now expire ws
        (w :: r.1, r.2)

/-- One tick of `Pool.expireWorker`: if the pool is closed the reaper
loop stops (the returned flag is `false`); otherwise, under the mutex,
the stale prefix of the idle list is poisoned and removed.  The
`running` counter is not touched. -/
def expireTick (p : Pool) (now : Int) : Pool × List Ev × Bool :=
  if IsClosed p then (p, [], false)
  else
    let r := expireScan now p.expire p.workers
    ( { p with workers := r.2 }
    , r.1.map (fun w => Ev.sendPoison w.wid)
    , true )

/-- `w.task = nil; w.pool = nil` applied by `Release` to an idle worker. -/
def clearWorker (w : Worker) : Worker :=
  { w with hasPool := false, hasChan := false }

/-- `Pool.Release` from pool.go: guarded by `sync.Once`, so a second call
does nothing.  The first call nils out every idle worker's `task` and
`pool` references, sets `p.workers = nil`, and sends one value into the
`release` channel.  The middle component is the list of worker objects
as mutated by the teardown. -/
def Release (p : Pool) : Pool × List Worker × List Ev :=
  if p.onceDone then (p, [], [])
  else
    ( { p with workers := [], onceDone := true, releaseLen := p.releaseLen + 1 }
    , p.workers.map clearWorker
    , [Ev.writeCloseSig] )

/-- `Pool.Restart` from pool.go: if `len(p.release) <= 0` return true
with no side effects; otherwise receive the buffered value and launch
`go p.expireWorker()`, then return true. -/
def Restart (p : Pool) : Pool × Bool :=
  if p.releaseLen = 0 then (p, true)
  else ({ p with releaseLen := p.releaseLen - 1, reaperStarted := true }, true)

/-!
Fine-grained interleaving model of the new-worker path of `GetWorker`,
for two concurrent `Submit` callers.  The relevant source sequence is:
`p.lock.Lock()`; the idle list is seen empty; the guard `p.running <
p.cap` is evaluated; `p.lock.Unlock()`; then `readyWorker` runs
`w.run()`, whose `p.incRunning()` is a lock-free atomic add.  The guard
evaluation and the increment are thus separated by the mutex release.
-/

/-- Program counter of one `Submit` caller inside `GetWorker`'s
new-worker path. -/
inductive SubPC where
  | start
  | checkedGuard
  | unlocked
  | done
deriving DecidableEq

/-- Shared state for two concurrent callers: the atomic `running`
counter, the pool mutex, and one program counter per caller (the idle
list stays empty throughout this fragment). -/
structure CState where
  cap : Int
  running : Int
  lockHeld : Bool
  pc1 : SubPC
  pc2 : SubPC
deriving DecidableEq

/-- One interleaved step.  `lock` acquires the mutex, observes the empty
idle list and evaluates the guard `running < cap` (all while holding the
mutex); `unlock` releases the mutex; `inc` performs the lock-free
`incRunning` atomic add. -/
inductive CStep : CState → CState → Prop where
  | lock1 (s : CState) (h : s.pc1 = SubPC.start) (hl : s.lockHeld = false)
      (hg : s.running < s.cap) :
      CStep s { s with pc1 := SubPC.checkedGuard, lockHeld := true }
  | unlock1 (s : CState) (h : s.pc1 = SubPC.checkedGuard) :
      CStep s { s with pc1 := SubPC.unlocked, lockHeld := false }
  | inc1 (s : CState) (h : s.pc1 = SubPC.unlocked) :
      CStep s { s with pc1 := SubPC.done, running := s.running + 1 }
  | lock2 (s : CState) (h : s.pc2 = SubPC.start) (hl : s.lockHeld = false)
      (hg : s.running < s.cap) :
      CStep s { s with pc2 := SubPC.checkedGuard, lockHeld := true }
  | unlock2 (s : CState) (h : s.pc2 = SubPC.checkedGuard) :
      CStep s { s with pc2 := SubPC.unlocked, lockHeld := false }
  | inc2 (s : CState) (h : s.pc2 = SubPC.unlocked) :
      CStep s { s with pc2 := SubPC.done, running := s.running + 1 }

/-- Both callers have returned from the fragment: a quiescent
observation point. -/
def quiescentC (s : CState) : Prop :=
  s.pc1 = SubPC.done ∧ s.pc2 = SubPC.done

/-- A capacity-1 pool before any submission, with two `Submit` callers
about to run the new-worker path. -/
def cInit : CState :=
  { cap := 1, running := 0, lockHeld := false, pc1 := SubPC.start, pc2 := SubPC.start }

/-- The quiescent state reached from `cInit` by the interleaving in
which both callers pass the capacity guard before either increments. -/
def cFinalC : CState :=
  { cap := 1, running := 2, lockHeld := false, pc1 := SubPC.done, pc2 := SubPC.done }

/-!
Sequential (non-overlapping) operation of the pool.  `RState` couples
the `Pool` struct with the runtime population of worker goroutines:
`busy` are the workers currently executing or draining a message outside
the idle list, and `leaked` counts goroutines of workers that `Release`
dropped from the idle list without poisoning (their loops stay blocked
on the now-nil channel, so `running` keeps counting them).
-/

/-- Pool struct plus the live worker goroutines not in the idle list. -/
structure RState where
  pool : Pool
  busy : List Worker
  leaked : Nat

/-- Effect of one whole `Submit` call executed without interleaving. -/
def submitStep (s : RState) (t : Task) : RState :=
  let r := Submit s.pool t
  { s with
    pool := r.1
    busy := match r.2.2.1 with
            | some w => w :: s.busy
            | none => s.busy }

/-- Effect of one busy worker receiving one message (a task or the
poison) and running one iteration of its loop. -/
def workerStepR (s : RState) (b1 b2 : List Worker) (w : Worker)
    (msg : Option Task) (now : Int) : RState :=
  let r := runningStep s.pool w msg now
  { s with pool := r.1, busy := b1 ++ b2 }

/-- Effect of one reaper tick: the poisoned stale prefix leaves the idle
list and its goroutines drain the poison (they become busy until their
poison step runs). -/
def reapStep (s : RState) (now : Int) : RState :=
  if IsClosed s.pool then s
  else
    { s with
      pool := (expireTick s.pool now).1
      busy := s.busy ++ (expireScan now s.pool.expire s.pool.workers).1 }

/-- Effect of `Release`: the idle workers are dropped from the list but
their goroutines were never poisoned, so they leak. -/
def releaseStep (s : RState) : RState :=
  { s with
    pool := (Release s.pool).1
    leaked := s.leaked + (if s.pool.onceDone then 0 else s.pool.workers.length) }

/-- Effect of `Restart`. -/
def restartStep (s : RState) : RState :=
  { s with pool := (Restart s.pool).1 }

/-- Sequential operation: at most one pool operation or worker loop
iteration runs at a time. -/
inductive SeqStep : RState → RState → Prop where
  | submit (s : RState) (t : Task) : SeqStep s (submitStep s t)
  | worker (s : RState) (b1 b2 : List Worker) (w : Worker) (msg : Option Task)
      (now : Int) (h : s.busy = b1 ++ w :: b2) :
      SeqStep s (workerStepR s b1 b2 w msg now)
  | reap (s : RState) (now : Int) : SeqStep s (reapStep s now)
  | release (s : RState) : SeqStep s (releaseStep s)
  | restart (s : RState) : SeqStep s (restartStep s)

/-- Coupling invariant of sequential operation on a pool whose condition
variable is initialized: `running` counts exactly the live worker
goroutines (idle, busy, or leaked), and never exceeds the capacity. -/
def InvC (s : RState) : Prop :=
  s.pool.condInit = true ∧
  s.pool.running = s.pool.workers.length + s.busy.length + s.leaked ∧
  s.pool.running ≤ s.pool.cap

/-- Staleness test of the reaper: `now - w.lastTime > expire`. -/
def staleB (now expire : Int) (w : Worker) : Bool :=
  decide (expire < now - w.lastTime)

/-- A signal event, of either a valid or a nil condition variable. -/
def isSignalEv : Ev → Bool
  | Ev.condSignal _ => true
  | _ => false

/-!
Concrete fixtures used by the witnesses and counterexamples below.
-/

/-- A generic worker fixture. -/
def wUnit : Worker :=
  { wid := 0, hasPool := true, hasChan := true, chanBuf := [], lastTime := 0 }

/-- The pool built by `NewTimePool 1 1`. -/
def freshP11 : Pool :=
  { cap := 1, running := 0, workers := [], expire := 1 * nsPerSecond
  , releaseLen := 0, onceDone := false, cache := [], condInit := false
  , panicHandlerSet := false, reaperStarted := false }

/-- `freshP11` after one worker has (hypothetically) started. -/
def brokenBusyP : Pool :=
  { cap := 1, running := 1, workers := [], expire := 1 * nsPerSecond
  , releaseLen := 0, onceDone := false, cache := [], condInit := false
  , panicHandlerSet := false, reaperStarted := false }

/-- The pool built by `NewTimePool 4 5`. -/
def freshP45 : Pool :=
  { cap := 4, running := 0, workers := [], expire := 5 * nsPerSecond
  , releaseLen := 0, onceDone := false, cache := [], condInit := false
  , panicHandlerSet := false, reaperStarted := false }

/-- A pool with an initialized condition variable and a panic handler. -/
def condHandlerP : Pool :=
  { cap := 4, running := 1, workers := [], expire := 5 * nsPerSecond
  , releaseLen := 0, onceDone := false, cache := [], condInit := true
  , panicHandlerSet := true, reaperStarted := true }

/-- A task that panics when invoked. -/
def tPanic : Task := { tid := 7, panics := true }

/-- A non-panicking task fixture. -/
def tNormal : Task := { tid := 0, panics := false }

/-- Trace of `condHandlerP` processing `tPanic` on worker `wUnit`. -/
def c2trace : List Ev :=
  (runningStep condHandlerP wUnit (some tPanic) 0).2.1

/-- A pool that is open, below capacity, with no idle worker and an
empty reuse cache (the state of any pool right after construction). -/
def belowCapEmptyP : Pool :=
  { cap := 2, running := 0, workers := [], expire := nsPerSecond
  , releaseLen := 0, onceDone := false, cache := [], condInit := true
  , panicHandlerSet := false, reaperStarted := false }

/-- A pool holding one idle worker. -/
def oneIdleP : Pool :=
  { cap := 4, running := 1, workers := [wUnit], expire := nsPerSecond
  , releaseLen := 0, onceDone := false, cache := [], condInit := true
  , panicHandlerSet := false, reaperStarted := false }

/-- An open pool with two stale idle workers and one fresh one. -/
def staleIdleP : Pool :=
  { cap := 4, running := 3
  , workers := [ { wUnit with wid := 1, lastTime := 0 }
               , { wUnit with wid := 2, lastTime := 1 }
               , { wUnit with wid := 3, lastTime := 90 } ]
  , expire := 10, releaseLen := 0, onceDone := false, cache := []
  , condInit := true, panicHandlerSet := false, reaperStarted := true }

/-- A closed pool: `Release` has run. -/
def closedP : Pool :=
  { cap := 4, running := 0, workers := [], expire := nsPerSecond
  , releaseLen := 1, onceDone := true, cache := [], condInit := false
  , panicHandlerSet := false, reaperStarted := false }

/-- Initial runtime state over `belowCapEmptyP`. -/
def rInit : RState := { pool := belowCapEmptyP, busy := [], leaked := 0 }

theorem expireScan_split (now e : Int) (ws : List Worker) :
    (expireScan now e ws).1 ++ (expireScan now e ws).2 = ws := by
  induction ws with
  | nil => simp [expireScan]
  | cons w ws ih =>
      by_cases h : now - w.lastTime ≤ e
      · simp [expireScan, h]
      · simp only [expireScan, if_neg h, List.cons_append, List.cons.injEq, true_and]
        exact ih

theorem expireScan_eq (now e : Int) (ws : List Worker) :
    expireScan now e ws = (ws.takeWhile (staleB now e), ws.dropWhile (staleB now e)) := by
  induction ws with
  | nil => simp [expireScan]
  | cons w ws ih =>
      by_cases h : now - w.lastTime ≤ e
      · have hs : staleB now e w = false := by
          simp [staleB]; omega
        simp [expireScan, h, List.takeWhile_cons, List.dropWhile_cons, hs]
      · have hs : staleB now e w = true := by
          simp [staleB]; omega
        simp [expireScan, h, List.takeWhile_cons, List.dropWhile_cons, hs, ih]

theorem newTimePool_ok {cap expire : Int} {p : Pool}
    (h : NewTimePool cap expire = Except.ok p) :
    0 < cap ∧ 0 < expire ∧
    p = { cap := cap, running := 0, workers := [], expire := expire * nsPerSecond
        , releaseLen := 0, onceDone := false, cache := [], condInit := false
        , panicHandlerSet := false, reaperStarted := false } := by
  unfold NewTimePool at h
  split at h
  · exact absurd h (by simp)
  · split at h
    · exact absurd h (by simp)
    · refine ⟨by omega, by omega, ?_⟩
      cases h
      rfl

/-- C8.  `NewTimePool(cap, expire)` returns `ErrorInValidCap` when
`cap <= 0`, `ErrorInValidExpire` when `cap > 0` and `expire <= 0`, and
otherwise a pool whose capacity is `cap` and whose idle expiry is
`expire` seconds; `NewPool(cap)` is `NewTimePool(cap, 5)`. -/
theorem c8_construction_validation (cap expire : Int) :
    (cap ≤ 0 → NewTimePool cap expire = Except.error PoolError.invalidCap) ∧
    (0 < cap → expire ≤ 0 → NewTimePool cap expire = Except.error PoolError.invalidExpire) ∧
    (0 < cap → 0 < expire →
      NewTimePool cap expire = Except.ok
        { cap := cap, running := 0, workers := [], expire := expire * nsPerSecond
        , releaseLen := 0, onceDone := false, cache := [], condInit := false
        , panicHandlerSet := false, reaperStarted := false }) ∧
    NewPool cap = NewTimePool cap 5 := by
  refine ⟨?_, ?_, ?_, rfl⟩
  · intro h; simp [NewTimePool, h]
  · intro h1 h2; simp [NewTimePool, h2]; omega
  · intro h1 h2
    have hc : ¬ cap ≤ 0 := by omega
    have he : ¬ expire ≤ 0 := by omega
    simp [NewTimePool, hc, he]

/-- Witness for C8 at `cap = 3`, `expire = 2`. -/
theorem c8_construction_validation_witness :
    NewTimePool 3 2 = Except.ok
      { cap := 3, running := 0, workers := [], expire := 2 * nsPerSecond
      , releaseLen := 0, onceDone := false, cache := [], condInit := false
      , panicHandlerSet := false, reaperStarted := false } :=
  (c8_construction_validation 3 2).2.2.1 (by norm_num) (by norm_num)

/-- C9.  No constructor initializes the `cond` field, and every
operation that reaches it dereferences the nil pointer: `PutWorker`
calls `Signal` unconditionally after appending the worker to the idle
list; the deferred cleanup of the worker loop calls `Signal` on every
exit, so every loop iteration of a worker of such a pool ends in a
crash; and `waitIdleWorker`, entered by `GetWorker` when the pool is at
capacity with no idle worker, immediately calls `Wait` on the nil
pointer. -/
theorem c9_nil_cond_dereference :
    (∀ cap expire p, NewTimePool cap expire = Except.ok p → p.condInit = false) ∧
    (∀ cap p, NewPool cap = Except.ok p → p.condInit = false) ∧
    (∀ q w now, q.condInit = false →
      (PutWorker q w now).out = POut.panicNilCond ∧
      Ev.condSignal true ∈ (PutWorker q w now).trace ∧
      (PutWorker q w now).pool.workers = q.workers ++ [{ w with lastTime := now }]) ∧
    (∀ q w msg now, q.condInit = false →
      (runningStep q w msg now).2.2 = StepRes.crashed ∧
      Ev.condSignal true ∈ (runningStep q w msg now).2.1) ∧
    (∀ q, q.condInit = false → q.workers = [] → ¬ q.running < q.cap →
      GetWorker q = (q, GetRes.panicNilCondWait, [Ev.condWait true])) := by
  refine ⟨?_, ?_, ?_, ?_, ?_⟩
  · intro cap expire p h
    rw [(newTimePool_ok h).2.2]
  · intro cap p h
    rw [(newTimePool_ok h).2.2]
  · intro q w now hc
    simp [PutWorker, hc]
  · intro q w msg now hc
    match msg with
    | none => simp [runningStep, runningDefer, hc]
    | some t =>
        by_cases hp : t.panics
        · simp [runningStep, runningDefer, hp, hc]
        · simp [runningStep, runningDefer, PutWorker, hp, hc]
  · intro q hc hw hr
    simp [GetWorker, hw, hr, hc]

/-- Witness for C9: a concrete constructed pool has a nil `cond`, and a
concrete worker completing a task on it crashes in `Signal`. -/
theorem c9_nil_cond_dereference_witness :
    freshP11.condInit = false ∧
    (runningStep brokenBusyP wUnit (some { tid := 3, panics := false }) 5).2.2 =
      StepRes.crashed :=
  ⟨c9_nil_cond_dereference.1 1 1 freshP11 rfl,
   (c9_nil_cond_dereference.2.2.2.1 brokenBusyP wUnit
      (some { tid := 3, panics := false }) 5 rfl).1⟩

/-- C10.  A freshly constructed pool has an empty worker cache with no
constructor function, so the first `Submit` (empty idle list, `running <
cap`, empty cache) reaches the unguarded type assertion
`p.workerCache.Get().(*Worker)` on a nil result and panics instead of
returning normally. -/
theorem c10_first_submit_asserts (cap expire : Int) (p : Pool) (t : Task)
    (h : NewTimePool cap expire = Except.ok p) :
    p.cache = [] ∧ p.workers = [] ∧ p.running = 0 ∧ p.running < p.cap ∧
    (GetWorker p).2.1 = GetRes.panicNilAssert ∧
    Ev.nilTypeAssert ∈ (GetWorker p).2.2 ∧
    (Submit p t).2.1 = SubmitRes.panicNilAssert := by
  obtain ⟨hcap, -, hp⟩ := newTimePool_ok h
  subst hp
  refine ⟨rfl, rfl, rfl, by simpa using hcap, ?_, ?_, ?_⟩
  · simp [GetWorker, hcap]
  · simp [GetWorker, hcap]
  · simp [Submit, GetWorker, hcap]

/-- Witness for C10 at `NewTimePool 4 5`. -/
theorem c10_first_submit_asserts_witness :
    NewTimePool 4 5 = Except.ok freshP45 ∧
    (Submit freshP45 { tid := 0, panics := false }).2.1 = SubmitRes.panicNilAssert :=
  ⟨rfl,
   (c10_first_submit_asserts 4 5 freshP45 { tid := 0, panics := false } rfl).2.2.2.2.2.2⟩

/-- Counterexample to C2 as stated: in the deferred cleanup of
`Worker.running`, the `recover()` dispatch happens strictly after
`decRunning` and after `workerCache.Put`, never before them. -/
theorem c2_recovery_not_before_teardown :
    Ev.recoverNonNil ∈ c2trace ∧ Ev.decRunning ∈ c2trace ∧
    Ev.cachePut 0 ∈ c2trace ∧
    ¬ c2trace.indexOf Ev.recoverNonNil < c2trace.indexOf Ev.decRunning ∧
    ¬ c2trace.indexOf Ev.recoverNonNil < c2trace.indexOf (Ev.cachePut 0) := by
  decide

/-- C2 (amended).  A task panic is recovered in the deferred cleanup at
the loop boundary: the goroutine ends without re-raising the task panic,
the `PanicHandler` is invoked when set and otherwise the logger reports
the error; but the recovery runs after `runningCount` is decremented and
after the worker is returned to the reuse cache, because the deferred
function performs `decRunning`, then `workerCache.Put`, then
`recover()`. -/
theorem c2_panic_recovery (p : Pool) (w : Worker) (t : Task) (now : Int)
    (hc : p.condInit = true) (hp : t.panics = true) :
    runningStep p w (some t) now =
      ( { p with running := p.running - 1, cache := w :: p.cache }
      , [Ev.invokeTask t.tid, Ev.taskPanicked t.tid, Ev.decRunning, Ev.cachePut w.wid] ++
          (if p.panicHandlerSet then [Ev.recoverNonNil, Ev.callPanicHandler]
           else [Ev.recoverNonNil, Ev.logError]) ++
          [Ev.condSignal false]
      , StepRes.exited ) := by
  simp [runningStep, runningDefer, hp, hc]

/-- Witness for C2 (amended) on `condHandlerP`, `wUnit`, `tPanic`. -/
theorem c2_panic_recovery_witness :
    runningStep condHandlerP wUnit (some tPanic) 0 =
      ( { condHandlerP with running := 0, cache := [wUnit] }
      , [Ev.invokeTask 7, Ev.taskPanicked 7, Ev.decRunning, Ev.cachePut 0
        , Ev.recoverNonNil, Ev.callPanicHandler, Ev.condSignal false]
      , StepRes.exited ) := by
  have h := c2_panic_recovery condHandlerP wUnit tPanic 0 rfl rfl
  simpa [condHandlerP, wUnit, tPanic] using h

/-- Counterexample to C3 as stated: on the step-2 path (idle list empty,
`running < cap`) with an empty reuse cache, `GetWorker` does not
materialize a worker, fresh or otherwise; it hits the unguarded type
assertion on the nil cache result. -/
theorem c3_step2_no_fresh_worker :
    belowCapEmptyP.workers = [] ∧
    belowCapEmptyP.running < belowCapEmptyP.cap ∧
    GetWorker belowCapEmptyP =
      (belowCapEmptyP, GetRes.panicNilAssert, [Ev.cacheGet none, Ev.nilTypeAssert]) := by
  refine ⟨rfl, by decide, ?_⟩
  decide

/-- C3 (amended).  `GetWorker` follows the priority order: (1) pop the
most recently idled worker (the last element) when the idle list is
non-empty; (2) else, when `running < cap`, release the mutex and take a
worker from the reuse cache, incrementing `running` — panicking on the
unguarded type assertion when the cache is empty instead of building a
fresh worker; (3) else block on the condition variable, and on wake-up
retry the whole algorithm (`waitResume`): pop an idle worker if one
appeared, else create one (cache hit, or a genuinely fresh worker on
this guarded path) when below capacity, else wait again. -/
theorem c3_getWorker_priority (p : Pool) (fid : Nat) :
    (∀ l w, p.workers = l ++ [w] →
      GetWorker p = ({ p with workers := l }, GetRes.idleW w, [Ev.popIdle w.wid])) ∧
    (p.workers = [] → p.running < p.cap → p.cache = [] →
      GetWorker p = (p, GetRes.panicNilAssert, [Ev.cacheGet none, Ev.nilTypeAssert])) ∧
    (∀ c rest, p.workers = [] → p.running < p.cap → p.cache = c :: rest →
      GetWorker p = ({ p with cache := rest, running := p.running + 1 }
        , GetRes.newW c, [Ev.cacheGet (some c.wid), Ev.incRunning])) ∧
    (p.workers = [] → ¬ p.running < p.cap → p.condInit = true →
      GetWorker p = (p, GetRes.mustWait, [Ev.condWait false])) ∧
    (∀ l w, p.workers = l ++ [w] →
      waitResume p fid = ({ p with workers := l }, WaitRes.idleW w)) ∧
    (p.workers = [] → p.running < p.cap → p.cache = [] →
      waitResume p fid = ({ p with running := p.running + 1 }
        , WaitRes.freshW { wid := fid, hasPool := true, hasChan := true
                         , chanBuf := [], lastTime := 0 })) ∧
    (∀ c rest, p.workers = [] → p.running < p.cap → p.cache = c :: rest →
      waitResume p fid = ({ p with cache := rest, running := p.running + 1 }
        , WaitRes.cachedW c)) ∧
    (p.workers = [] → ¬ p.running < p.cap → waitResume p fid = (p, WaitRes.waitAgain)) := by
  refine ⟨?_, ?_, ?_, ?_, ?_, ?_, ?_, ?_⟩
  · intro l w hw
    simp [GetWorker, hw, List.getLast?_concat, List.dropLast_concat]
  · intro hw hr hc
    simp [GetWorker, hw, hr, hc]
  · intro c rest hw hr hc
    simp [GetWorker, hw, hr, hc]
  · intro hw hr hc
    simp [GetWorker, hw, hr, hc]
  · intro l w hw
    simp [waitResume, hw, List.getLast?_concat, List.dropLast_concat]
  · intro hw hr hc
    simp [waitResume, hw, hr, hc]
  · intro c rest hw hr hc
    simp [waitResume, hw, hr, hc]
  · intro hw hr
    simp [waitResume, hw, hr]

/-- Witness for C3 (amended): on `oneIdleP` the idle worker is popped. -/
theorem c3_getWorker_priority_witness :
    GetWorker oneIdleP =
      ({ oneIdleP with workers := [] }, GetRes.idleW wUnit, [Ev.popIdle 0]) :=
  (c3_getWorker_priority oneIdleP 0).1 [] wUnit rfl

/-- C4.  On a pool whose condition variable is initialized, the worker
loop: given a non-nil task, invokes it synchronously and returns itself
to the idle list — `lastActiveAt` set to now, appended at the end of
`idleWorkers`, exactly one `Signal` of the condition variable — and
keeps looping; given the nil poison value, exits permanently without
touching the idle list, decrementing `running` and putting the worker
object into the reuse cache. -/
theorem c4_worker_loop (p : Pool) (w : Worker) (t : Task) (now : Int)
    (hc : p.condInit = true) (ht : t.panics = false) :
    runningStep p w (some t) now =
      ( { p with workers := p.workers ++ [{ w with lastTime := now }] }
      , [Ev.invokeTask t.tid, Ev.setLastTime w.wid now, Ev.appendIdle w.wid
        , Ev.condSignal false]
      , StepRes.continueLoop ) ∧
    ((runningStep p w (some t) now).2.1.filter isSignalEv).length = 1 ∧
    runningStep p w none now =
      ( { p with running := p.running - 1, cache := w :: p.cache }
      , [Ev.decRunning, Ev.cachePut w.wid, Ev.condSignal false]
      , StepRes.exited ) := by
  have h1 : runningStep p w (some t) now =
      ( { p with workers := p.workers ++ [{ w with lastTime := now }] }
      , [Ev.invokeTask t.tid, Ev.setLastTime w.wid now, Ev.appendIdle w.wid
        , Ev.condSignal false]
      , StepRes.continueLoop ) := by
    simp [runningStep, PutWorker, ht, hc]
  refine ⟨h1, ?_, ?_⟩
  · rw [h1]
    simp [isSignalEv]
  · simp [runningStep, runningDefer, hc]

/-- Witness for C4 on `condHandlerP`, `wUnit` and a normal task. -/
theorem c4_worker_loop_witness :
    runningStep condHandlerP wUnit (some { tid := 2, panics := false }) 9 =
      ( { condHandlerP with workers := [{ wUnit with lastTime := 9 }] }
      , [Ev.invokeTask 2, Ev.setLastTime 0 9, Ev.appendIdle 0, Ev.condSignal false]
      , StepRes.continueLoop ) := by
  have h := (c4_worker_loop condHandlerP wUnit { tid := 2, panics := false } 9 rfl rfl).1
  simpa [condHandlerP, wUnit] using h

/-- Counterexample to C5 as stated: construction launches no reaper.
`NewTimePool` builds the pool literal and returns; the only call site of
`go p.expireWorker()` is `Restart`. -/
theorem c5_constructor_launches_no_reaper :
    NewTimePool 1 1 = Except.ok freshP11 ∧ freshP11.reaperStarted = false :=
  ⟨rfl, rfl⟩

/-- C5 (amended).  The reaper goroutine is launched by `Restart` on a
closed pool, not at construction.  Once running it ticks on a fixed
interval equal to the idle expiry; each tick stops the loop permanently
if the pool is closed, and otherwise poisons and removes exactly the
maximal stale prefix of the idle list — the workers `w` with
`now - w.lastTime > expire` up to the first one still within its window
— leaving `running` and the capacity untouched. -/
theorem c5_reaper_tick (p : Pool) (now : Int) :
    (IsClosed p = true → expireTick p now = (p, [], false)) ∧
    (IsClosed p = false →
      expireTick p now =
        ( { p with workers := p.workers.dropWhile (staleB now p.expire) }
        , (p.workers.takeWhile (staleB now p.expire)).map (fun w => Ev.sendPoison w.wid)
        , true )) ∧
    (expireTick p now).1.running = p.running ∧
    (expireTick p now).1.cap = p.cap ∧
    (0 < p.releaseLen → (Restart p).1.reaperStarted = true) ∧
    (∀ c e q, NewTimePool c e = Except.ok q → q.reaperStarted = false) := by
  have htick : IsClosed p = false →
      expireTick p now =
        ( { p with workers := p.workers.dropWhile (staleB now p.expire) }
        , (p.workers.takeWhile (staleB now p.expire)).map (fun w => Ev.sendPoison w.wid)
        , true ) := by
    intro h
    simp [expireTick, h, expireScan_eq]
  refine ⟨?_, htick, ?_, ?_, ?_, ?_⟩
  · intro h
    simp [expireTick, h]
  · by_cases h : IsClosed p
    · simp [expireTick, h]
    · rw [htick (by simpa using h)]
  · by_cases h : IsClosed p
    · simp [expireTick, h]
    · rw [htick (by simpa using h)]
  · intro h
    have hne : ¬ p.releaseLen = 0 := by omega
    simp [Restart, hne]
  · intro c e q h
    rw [(newTimePool_ok h).2.2]

/-- Witness for C5 (amended): at `now = 100` with expiry 10, the two
workers idle since 0 and 1 are evicted, the one idle since 90 stays. -/
theorem c5_reaper_tick_witness :
    expireTick staleIdleP 100 =
      ( { staleIdleP with workers := [{ wUnit with wid := 3, lastTime := 90 }] }
      , [Ev.sendPoison 1, Ev.sendPoison 2]
      , true ) := by
  have h := (c5_reaper_tick staleIdleP 100).2.1 (by decide)
  rw [h]
  simp [staleIdleP, wUnit, staleB, List.takeWhile, List.dropWhile]

/-- Counterexample to C6 as stated: on an open, freshly constructed pool
`Submit` does not return nil — `GetWorker` panics on the nil type
assertion before any task hand-off. -/
theorem c6_open_submit_panics :
    NewPool 4 = Except.ok freshP45 ∧
    IsClosed freshP45 = false ∧
    (Submit freshP45 tNormal).2.1 = SubmitRes.panicNilAssert := by
  refine ⟨rfl, rfl, ?_⟩
  decide

/-- C6 (amended).  `Submit` returns the `PoolClosed` error exactly when
the pool has been released and not restarted (the `release` channel
holds a value); when it returns normally (a worker was acquired) it
returns nil after placing the task in that worker's single-slot channel
without invoking it; but on the new-worker path with an empty reuse
cache it panics instead of returning, and at capacity it reaches the
condition variable (a nil dereference on constructed pools). -/
theorem getWorker_trace_no_invoke (p : Pool) (tid : Nat) :
    Ev.invokeTask tid ∉ (GetWorker p).2.2 := by
  rcases hL : p.workers.getLast? with _ | w
  · by_cases h : p.running < p.cap
    · rcases hc : p.cache with _ | ⟨c, rest⟩
      · simp [GetWorker, hL, h, hc]
      · simp [GetWorker, hL, h, hc]
    · by_cases hci : p.condInit = true <;> simp [GetWorker, hL, h, hci]
  · simp [GetWorker, hL]

theorem submit_trace_no_invoke (p : Pool) (t : Task) (tid : Nat) :
    Ev.invokeTask tid ∉ (Submit p t).2.2.2 := by
  have hg := getWorker_trace_no_invoke p tid
  unfold Submit
  split
  · simp
  · rcases h2 : (GetWorker p).2.1 with w | w | _ | _ | _ <;>
      simp [h2, List.mem_append, hg]

theorem c6_submit_result (p : Pool) (t : Task) :
    ((Submit p t).2.1 = SubmitRes.errClosed ↔ 0 < p.releaseLen) ∧
    (∀ w, (Submit p t).2.2.1 = some w →
      w.chanBuf.getLast? = some (some t) ∧
      Ev.invokeTask t.tid ∉ (Submit p t).2.2.2) := by
  constructor
  · constructor
    · intro h
      by_contra hn
      unfold Submit at h
      rw [if_neg hn] at h
      rcases h2 : (GetWorker p).2.1 with w | w | _ | _ | _ <;> simp [h2] at h
    · intro h
      simp [Submit, h]
  · intro w hw
    refine ⟨?_, submit_trace_no_invoke p t t.tid⟩
    by_cases hrel : 0 < p.releaseLen
    · simp [Submit, hrel] at hw
    · unfold Submit at hw
      rw [if_neg hrel] at hw
      rcases h2 : (GetWorker p).2.1 with w0 | w0 | _ | _ | _ <;> simp [h2] at hw
      · rw [← hw]
        simp [List.getLast?_concat]
      · rw [← hw]
        simp [List.getLast?_concat]

/-- Witness for C6 (amended) on a pool with one idle worker: the task is
accepted into the channel of that worker and not invoked during
`Submit`. -/
theorem c6_submit_result_witness :
    ((Submit oneIdleP tNormal).2.1 = SubmitRes.errClosed ↔ 0 < oneIdleP.releaseLen) ∧
    (List.getLast? (List.cons (some tNormal) List.nil) = some (some tNormal) ∧
      Ev.invokeTask tNormal.tid ∉ (Submit oneIdleP tNormal).2.2.2) :=
  ⟨(c6_submit_result oneIdleP tNormal).1,
   (c6_submit_result oneIdleP tNormal).2 { wUnit with chanBuf := [some tNormal] }
     (by decide)⟩

/-- C7.  `Release` runs its teardown at most once: the first call clears
every idle worker's pool and channel references, empties the idle list
and writes the close signal; a second call is a no-op and writes
nothing.  `Restart` on an open pool returns true with no side effects;
on a closed pool it consumes the close signal, launches the reaper and
returns true. -/
theorem c7_release_once_restart (p : Pool) :
    (p.onceDone = false →
      Release p =
        ( { p with workers := [], onceDone := true, releaseLen := p.releaseLen + 1 }
        , p.workers.map clearWorker
        , [Ev.writeCloseSig] )) ∧
    (∀ w, w ∈ (Release p).2.1 → w.hasPool = false ∧ w.hasChan = false) ∧
    Release ((Release p).1) = ((Release p).1, [], []) ∧
    (p.releaseLen = 0 → Restart p = (p, true)) ∧
    (0 < p.releaseLen →
      Restart p = ({ p with releaseLen := p.releaseLen - 1, reaperStarted := true }, true)) := by
  refine ⟨?_, ?_, ?_, ?_, ?_⟩
  · intro h
    simp [Release, h]
  · intro w hw
    by_cases h : p.onceDone
    · simp [Release, h] at hw
    · simp [Release, h] at hw
      obtain ⟨w0, -, hww⟩ := hw
      rw [← hww]
      exact ⟨rfl, rfl⟩
  · by_cases h : p.onceDone
    · simp [Release, h]
    · simp [Release, h]
  · intro h
    simp [Restart, h]
  · intro h
    have hne : ¬ p.releaseLen = 0 := by omega
    simp [Restart, hne]

/-- Witness for C7: releasing `oneIdleP` clears the worker references
and writes the close signal; restarting the closed result consumes it
and launches the reaper. -/
theorem c7_release_once_restart_witness :
    Release oneIdleP =
      ( { oneIdleP with workers := [], onceDone := true, releaseLen := 1 }
      , [{ wUnit with hasPool := false, hasChan := false }]
      , [Ev.writeCloseSig] ) ∧
    Restart closedP = ({ closedP with releaseLen := 0, reaperStarted := true }, true) := by
  constructor
  · have h := (c7_release_once_restart oneIdleP).1 rfl
    simpa [oneIdleP, wUnit, clearWorker] using h
  · have h := (c7_release_once_restart closedP).2.2.2.2 (by decide)
    simpa using h

theorem getWorker_pop_last (p : Pool) (w : Worker) (hL : p.workers.getLast? = some w) :
    GetWorker p =
      ({ p with workers := p.workers.dropLast }, GetRes.idleW w, [Ev.popIdle w.wid]) := by
  simp [GetWorker, hL]

theorem getWorker_cacheMiss (p : Pool) (hw : p.workers = [])
    (hr : p.running < p.cap) (hc : p.cache = []) :
    GetWorker p = (p, GetRes.panicNilAssert, [Ev.cacheGet none, Ev.nilTypeAssert]) := by
  simp [GetWorker, hw, hr, hc]

theorem getWorker_cacheHit (p : Pool) (c : Worker) (rest : List Worker)
    (hw : p.workers = []) (hr : p.running < p.cap) (hc : p.cache = c :: rest) :
    GetWorker p = ({ p with cache := rest, running := p.running + 1 }
      , GetRes.newW c, [Ev.cacheGet (some c.wid), Ev.incRunning]) := by
  simp [GetWorker, hw, hr, hc]

theorem getWorker_atCap_wait (p : Pool) (hw : p.workers = [])
    (hr : ¬ p.running < p.cap) (hci : p.condInit = true) :
    GetWorker p = (p, GetRes.mustWait, [Ev.condWait false]) := by
  simp [GetWorker, hw, hr, hci]

theorem invC_submit (s : RState) (t : Task) (hi : InvC s) : InvC (submitStep s t) := by
  obtain ⟨hc, hcount, hcap⟩ := hi
  by_cases hrel : 0 < s.pool.releaseLen
  · have heq : submitStep s t = s := by
      simp [submitStep, Submit, hrel]
    rw [heq]
    exact ⟨hc, hcount, hcap⟩
  · rcases hL : s.pool.workers.getLast? with _ | w
    · have hw : s.pool.workers = [] := List.getLast?_eq_none_iff.mp hL
      by_cases hr : s.pool.running < s.pool.cap
      · rcases hcache : s.pool.cache with _ | ⟨c, rest⟩
        · have heq : submitStep s t = s := by
            simp [submitStep, Submit, hrel, getWorker_cacheMiss s.pool hw hr hcache]
          rw [heq]
          exact ⟨hc, hcount, hcap⟩
        · have heq : submitStep s t =
              { pool := { s.pool with cache := rest, running := s.pool.running + 1 }
              , busy := { c with chanBuf := c.chanBuf ++ [some t] } :: s.busy
              , leaked := s.leaked } := by
            simp [submitStep, Submit, hrel, getWorker_cacheHit s.pool c rest hw hr hcache]
          rw [heq]
          rw [hw] at hcount
          refine ⟨hc, ?_, ?_⟩
          · simp only [hw, List.length_nil, List.length_cons]
            simp only [List.length_nil] at hcount
            push_cast at hcount ⊢
            omega
          · show s.pool.running + 1 ≤ s.pool.cap
            omega
      · have heq : submitStep s t = s := by
          simp [submitStep, Submit, hrel, getWorker_atCap_wait s.pool hw hr hc]
        rw [heq]
        exact ⟨hc, hcount, hcap⟩
    · have heq : submitStep s t =
          { pool := { s.pool with workers := s.pool.workers.dropLast }
          , busy := { w with chanBuf := w.chanBuf ++ [some t] } :: s.busy
          , leaked := s.leaked } := by
        simp [submitStep, Submit, hrel, getWorker_pop_last s.pool w hL]
      rw [heq]
      have hlen : 1 ≤ s.pool.workers.length := by
        refine List.length_pos.mpr ?_
        intro hnil
        rw [hnil] at hL
        simp at hL
      refine ⟨hc, ?_, ?_⟩
      · simp only [List.length_cons, List.length_dropLast]
        push_cast at hcount ⊢
        omega
      · exact hcap

theorem invC_worker (s : RState) (b1 b2 : List Worker) (w : Worker)
    (msg : Option Task) (now : Int) (h : s.busy = b1 ++ w :: b2) (hi : InvC s) :
    InvC (workerStepR s b1 b2 w msg now) := by
  obtain ⟨hc, hcount, hcap⟩ := hi
  rw [h] at hcount
  simp only [List.length_append, List.length_cons] at hcount
  rcases msg with _ | t
  · have heq : workerStepR s b1 b2 w none now =
        { pool := { s.pool with running := s.pool.running - 1, cache := w :: s.pool.cache }
        , busy := b1 ++ b2, leaked := s.leaked } := by
      simp [workerStepR, runningStep, runningDefer]
    rw [heq]
    refine ⟨hc, ?_, ?_⟩
    · simp only [List.length_append]
      push_cast at hcount ⊢
      omega
    · show s.pool.running - 1 ≤ s.pool.cap
      omega
  · by_cases hp : t.panics
    · have heq : workerStepR s b1 b2 w (some t) now =
          { pool := { s.pool with running := s.pool.running - 1, cache := w :: s.pool.cache }
          , busy := b1 ++ b2, leaked := s.leaked } := by
        simp [workerStepR, runningStep, runningDefer, hp]
      rw [heq]
      refine ⟨hc, ?_, ?_⟩
      · simp only [List.length_append]
        push_cast at hcount ⊢
        omega
      · show s.pool.running - 1 ≤ s.pool.cap
        omega
    · have heq : workerStepR s b1 b2 w (some t) now =
          { pool := { s.pool with
              workers := s.pool.workers ++ [{ w with lastTime := now }] }
          , busy := b1 ++ b2, leaked := s.leaked } := by
        simp [workerStepR, runningStep, PutWorker, hp, hc]
      rw [heq]
      refine ⟨hc, ?_, ?_⟩
      · simp only [List.length_append, List.length_cons, List.length_nil]
        push_cast at hcount ⊢
        omega
      · exact hcap

theorem invC_reap (s : RState) (now : Int) (hi : InvC s) : InvC (reapStep s now) := by
  obtain ⟨hc, hcount, hcap⟩ := hi
  unfold reapStep
  by_cases hcl : IsClosed s.pool
  · rw [if_pos hcl]
    exact ⟨hc, hcount, hcap⟩
  · rw [if_neg hcl]
    have hlen : (expireScan now s.pool.expire s.pool.workers).1.length +
        (expireScan now s.pool.expire s.pool.workers).2.length =
        s.pool.workers.length := by
      have h := congrArg List.length (expireScan_split now s.pool.expire s.pool.workers)
      simpa [List.length_append] using h
    refine ⟨?_, ?_, ?_⟩
    · simpa [expireTick, hcl] using hc
    · simp only [expireTick, hcl, Bool.false_eq_true, if_neg, List.length_append]
      push_cast at hcount ⊢
      omega
    · simpa [expireTick, hcl] using hcap

theorem invC_release (s : RState) (hi : InvC s) : InvC (releaseStep s) := by
  obtain ⟨hc, hcount, hcap⟩ := hi
  unfold releaseStep
  by_cases ho : s.pool.onceDone
  · refine ⟨by simpa [Release, ho] using hc, ?_, by simpa [Release, ho] using hcap⟩
    simp only [Release, ho, if_pos, if_true]
    simpa using hcount
  · refine ⟨by simpa [Release, ho] using hc, ?_, by simpa [Release, ho] using hcap⟩
    simp only [Release, ho, if_neg, if_false, Bool.false_eq_true]
    simp only [List.length_nil]
    push_cast at hcount ⊢
    simp [ho]
    omega

theorem invC_restart (s : RState) (hi : InvC s) : InvC (restartStep s) := by
  obtain ⟨hc, hcount, hcap⟩ := hi
  unfold restartStep Restart
  by_cases h : s.pool.releaseLen = 0
  · simp only [h, if_pos, if_true]
    exact ⟨hc, hcount, hcap⟩
  · simp only [h, if_neg, if_false]
    exact ⟨hc, hcount, hcap⟩

theorem invC_preserved {s s2 : RState} (hst : SeqStep s s2) (hi : InvC s) : InvC s2 := by
  cases hst with
  | submit t => exact invC_submit s t hi
  | worker b1 b2 w msg now h => exact invC_worker s b1 b2 w msg now h hi
  | reap now => exact invC_reap s now hi
  | release => exact invC_release s hi
  | restart => exact invC_restart s hi

/-- Counterexample to C1 as stated: with capacity 1, two concurrent
`Submit` callers can interleave the new-worker path of `GetWorker` so
that both observe `running < cap` under the mutex, both release it, and
both then perform the lock-free `incRunning`, reaching a quiescent state
(both calls returned) with `running = 2 > cap = 1`. -/
theorem c1_concurrent_exceeds_capacity :
    Relation.ReflTransGen CStep cInit cFinalC ∧
    quiescentC cFinalC ∧ cFinalC.cap < cFinalC.running := by
  refine ⟨?_, ⟨rfl, rfl⟩, by decide⟩
  refine Relation.ReflTransGen.head (CStep.lock1 cInit rfl rfl (by decide)) ?_
  refine Relation.ReflTransGen.head (CStep.unlock1 _ rfl) ?_
  refine Relation.ReflTransGen.head (CStep.lock2 _ rfl rfl (by decide)) ?_
  refine Relation.ReflTransGen.head (CStep.unlock2 _ rfl) ?_
  refine Relation.ReflTransGen.head (CStep.inc1 _ rfl) ?_
  exact Relation.ReflTransGen.single (CStep.inc2 _ rfl)

/-- C1 (amended).  Under sequential (non-overlapping) operation — every
`Submit`, worker loop iteration, reaper tick, `Release` and `Restart`
runs atomically — a pool whose condition variable is initialized and
whose `running` counter agrees with the population of live worker
goroutines keeps `0 <= Running() <= capacity` at every quiescent
observation point.  The unrestricted concurrent claim fails because the
capacity check and `incRunning` are separated by the mutex release. -/
theorem c1_sequential_running_bounds (s0 s : RState) (h0 : InvC s0)
    (hr : Relation.ReflTransGen SeqStep s0 s) :
    0 ≤ Running s.pool ∧ Running s.pool ≤ s.pool.cap := by
  have hi : InvC s := by
    induction hr with
    | refl => exact h0
    | tail _ hstep ih => exact invC_preserved hstep ih
  obtain ⟨-, hcount, hcap⟩ := hi
  refine ⟨?_, hcap⟩
  rw [Running, hcount]
  positivity

/-- Witness for C1 (amended): one sequential `Submit` on a fresh-shaped
pool keeps the bounds. -/
theorem c1_sequential_running_bounds_witness :
    0 ≤ Running (submitStep rInit tNormal).pool ∧
    Running (submitStep rInit tNormal).pool ≤ (submitStep rInit tNormal).pool.cap :=
  c1_sequential_running_bounds rInit (submitStep rInit tNormal)
    ⟨rfl, by decide, by decide⟩
    (Relation.ReflTransGen.single (SeqStep.submit rInit tNormal))

end GoPool
